import Mathlib

/-!
# Verification of the `DeepClustering` separator (nussl)

Shallow embedding of `nussl/separation/deep_clustering.py` over exact
rational arithmetic.  NumPy float arrays are modelled as `List ℚ` (flat,
row-major, with explicit dimensions); the external real-valued library
functions `np.sqrt` and `np.log10` are passed in as parameters
(`sqrtQ`, `log10Q`), since the class only consumes them.  Fallible code
is modelled with `Except`.
-/

/-- The literal `1e-7` used throughout the Python file. -/
def eps7 : ℚ := 1 / 10000000

/-- The `1e-6` tolerance named by the specification for per-bin mask sums. -/
def tol6 : ℚ := 1 / 1000000

/-- `np.min` over a flat array (the Python code only applies it to nonempty
arrays; the `[]` case is a junk value). -/
def listMin : List ℚ → ℚ
  | [] => 0
  | a :: l => l.foldl min a

/-- `np.max` over a flat array. -/
def listMax : List ℚ → ℚ
  | [] => 0
  | a :: l => l.foldl max a

/-- Entry `A[i][j]` of a matrix stored as a list of rows. -/
def mentry (A : List (List ℚ)) (i j : ℕ) : ℚ := (A.getD i []).getD j 0

/-- `np.sum((e - c)**2, axis=-1)` for one embedding row `e` and centroid `c`
(line 187). -/
def sq_dist (e c : List ℚ) : ℚ := (List.zipWith (fun a b => (a - b) ^ 2) e c).sum

/-- Line 187: `distances = np.sqrt(np.sum((self.embeddings - self.centroids[s-1])**2, axis=-1))`. -/
def soft_distances (sqrtQ : ℚ → ℚ) (emb : List (List ℚ)) (cent : List ℚ) : List ℚ :=
  emb.map (fun e => sqrtQ (sq_dist e cent))

/-- Line 188: `distances += distances.min()` (the minimum of the original
array is evaluated first, then added to every entry). -/
def shift_min (d : List ℚ) : List ℚ := d.map (fun x => x + listMin d)

/-- The denominator of line 189: `distances.max() + 1e-7`, taken on the
already-shifted array. -/
def dist_denom (d1 : List ℚ) : ℚ := listMax d1 + eps7

/-- Line 189: `distances /= (distances.max() + 1e-7)`. -/
def norm_dist (d1 : List ℚ) : List ℚ := d1.map (fun x => x / dist_denom d1)

/-- Line 190: `distances[distances > self.max_distance] = 1`. -/
def clip_max (maxD : ℚ) (d : List ℚ) : List ℚ :=
  d.map (fun x => if maxD < x then 1 else x)

/-- Lines 187-191 without the final reshape: the per-bin affinity
`1 - distances` after shifting, normalizing and clipping. -/
def soft_affinity (sqrtQ : ℚ → ℚ) (emb : List (List ℚ)) (cent : List ℚ)
    (maxD : ℚ) : List ℚ :=
  (clip_max maxD (norm_dist (shift_min (soft_distances sqrtQ emb cent)))).map
    (fun x => 1 - x)

/-- NumPy boolean as a float factor. -/
def bool_to_q (b : Bool) : ℚ := if b then 1 else 0

/-- Lines 187-192 for one channel `ch` and one source `s` (1-based): the
flat `(time, mel)` slice of `silence_mask[ch] * distances[ch]`, where
`distances` has been reshaped to the mel-spectrogram shape.  `TM = T * M`
is the per-channel bin count; flat index `ch*TM + j` addresses bin `j` of
channel `ch`. -/
def soft_mel_mask (sqrtQ : ℚ → ℚ) (emb cents : List (List ℚ)) (sil : List Bool)
    (TM : ℕ) (maxD : ℚ) (ch s : ℕ) : List ℚ :=
  (List.range TM).map (fun j =>
    bool_to_q (sil.getD (ch * TM + j) false) *
      (soft_affinity sqrtQ emb (cents.getD (s - 1) []) maxD).getD (ch * TM + j) 0)

/-- Line 185: `mask = ((self.silence_mask[ch] * self.assignments[ch]) == cluster_index)`,
as the 0/1 float array NumPy feeds into `np.dot`.  `False * a = 0`. -/
def binary_mel_mask (sil : List Bool) (assign : List ℕ) (TM ch s : ℕ) : List ℚ :=
  (List.range TM).map (fun j =>
    if (if sil.getD (ch * TM + j) false then assign.getD (ch * TM + j) 0 else 0) = s
    then 1 else 0)

/-- Line 193: `mask = np.dot(mask, self.inverse_mel_filter_bank).T`.  The
mel-domain mask is a `(T, M)` matrix stored flat; `invFB` is the `M × F`
pseudo-inverse filter bank; the result is the transposed `(F, T)` product,
stored flat in row-major order (`idx = f * T + t`). -/
def proj_mask (mel : List ℚ) (invFB : List (List ℚ)) (T M F : ℕ) : List ℚ :=
  (List.range (F * T)).map (fun idx =>
    ((List.range M).map (fun m =>
      mel.getD ((idx % T) * M + m) 0 * mentry invFB m (idx / T))).sum)

/-- The denominator of line 195: `np.max(mask) + 1e-7`, taken on the mask
after line 194 has added `np.abs(mask.min())`. -/
def mask_denom (mask : List ℚ) : ℚ :=
  listMax (mask.map (fun x => x + |listMin mask|)) + eps7

/-- Lines 194-195: `mask += np.abs(mask.min()); mask /= (np.max(mask) + 1e-7)`. -/
def normalize_mask (mask : List ℚ) : List ℚ :=
  (mask.map (fun x => x + |listMin mask|)).map (fun x => x / mask_denom mask)

/-- Line 199 + the row-major flatten implicit in line 201's
`reshape(-1, 2)`: `np.stack(channel_mask_list, axis=-1)` laid out flat,
source index fastest.  `B` is the per-mask bin count `F * T`. -/
def stack_flat (ms : List (List ℚ)) : List ℚ :=
  (List.range (ms.headD []).length).flatMap (fun b => ms.map (fun m => m.getD b 0))

/-- Consecutive pairs of a flat array, as produced by `reshape(-1, 2)`. -/
def chunk2 : List ℚ → List (ℚ × ℚ)
  | a :: b :: r => (a, b) :: chunk2 r
  | _ => []

/-- Line 201: the stacked data cubed and grouped into the rows of
`data.reshape(-1, 2)**3`. -/
def cube_pairs (ms : List (List ℚ)) : List (ℚ × ℚ) :=
  chunk2 ((stack_flat ms).map (fun x => x ^ 3))

/-- The denominators used by line 202's
`(data.T / np.sum(data, axis=-1)).T`: the raw per-row sums of the cubed
data, with no epsilon added. -/
def sharpen_denoms (ms : List (List ℚ)) : List ℚ :=
  (cube_pairs ms).map (fun p => p.1 + p.2)

/-- Line 202, flattened back out: each cubed pair divided by its own sum. -/
def sharpen_flat (ms : List (List ℚ)) : List ℚ :=
  (cube_pairs ms).flatMap (fun p => [p.1 / (p.1 + p.2), p.2 / (p.1 + p.2)])

/-- Lines 199-204: stack, cube, renormalize per bin, reshape back to the
original `(F, T, num_sources)` shape and slice one mask per source
(`data[:, :, i]`, i.e. flat position `b * num_sources + i`). -/
def sharpen_masks (ms : List (List ℚ)) : List (List ℚ) :=
  (List.range ms.length).map (fun i =>
    (List.range (ms.headD []).length).map (fun b =>
      (sharpen_flat ms).getD (b * ms.length + i) 0))

/-- Lines 186-195 for one channel: the soft per-source masks after
projection and normalization, before sharpening (the entries of
`channel_mask_list` built by the `for cluster_index` loop). -/
def soft_source_mask (sqrtQ : ℚ → ℚ) (emb cents : List (List ℚ)) (sil : List Bool)
    (invFB : List (List ℚ)) (T M F : ℕ) (maxD : ℚ) (ch s : ℕ) : List ℚ :=
  normalize_mask (proj_mask (soft_mel_mask sqrtQ emb cents sil (T * M) maxD ch s) invFB T M F)

/-- Lines 183-195 for one channel under the binary policy. -/
def binary_source_mask (sil : List Bool) (assign : List ℕ) (invFB : List (List ℚ))
    (T M F : ℕ) (ch s : ℕ) : List ℚ :=
  normalize_mask (proj_mask (binary_mel_mask sil assign (T * M) ch s) invFB T M F)

/-- The full `channel_mask_list` of `_extract_masks` under the soft policy,
for sources `1 .. num_sources`, before the sharpening block. -/
def soft_channel_masks (sqrtQ : ℚ → ℚ) (emb cents : List (List ℚ)) (sil : List Bool)
    (invFB : List (List ℚ)) (T M F : ℕ) (maxD : ℚ) (ch num_sources : ℕ) :
    List (List ℚ) :=
  (List.range num_sources).map (fun k =>
    soft_source_mask sqrtQ emb cents sil invFB T M F maxD ch (k + 1))

/-- Arithmetic mean of a flat array (`np.mean`; the empty case is junk, as
in NumPy). -/
def meanQ (l : List ℚ) : ℚ := l.sum / l.length

/-- The variance under the square root of `np.std`: the mean of the
squared deviations from the mean (`ddof = 0`). -/
def varQ (l : List ℚ) : ℚ := meanQ (l.map (fun x => (x - meanQ l) ^ 2))

/-- The denominator of line 146: `np.std(mel) + 1e-7`, with the external
square root passed in as `sqrtQ`. -/
def std_denom (sqrtQ : ℚ → ℚ) (l : List ℚ) : ℚ := sqrtQ (varQ l) + eps7

/-- Lines 140-141: for each channel `np.dot(magnitude[:, :, i].T, mel_filter_bank)`,
assembled into the flat `(channel, time, mel)` array `self.mel_spectrogram`.
`mag` holds one `(F, T)` magnitude matrix per channel and `fb` is the
`F × M` mel filter bank. -/
def mel_projection (mag : List (List (List ℚ))) (fb : List (List ℚ))
    (C T M F : ℕ) : List ℚ :=
  (List.range (C * (T * M))).map (fun idx =>
    ((List.range F).map (fun f =>
      mentry (mag.getD (idx / (T * M)) []) f ((idx % (T * M)) / M) *
        mentry fb f (idx % M))).sum)

/-- Line 143: `10.0 * np.log10(mel**2 + 1e-7)` with the external base-10
logarithm passed in as `log10Q`. -/
def raw_log_power (log10Q : ℚ → ℚ) (proj : List ℚ) : List ℚ :=
  proj.map (fun x => 10 * log10Q (x ^ 2 + eps7))

/-- `MaskSeparationBase.BINARY_MASK`.  Modelled from the spec: `mask_type`
is a string-valued configuration option with recognized values "binary"
and "soft", coming from the (external) `mask_separation_base` module. -/
def BINARY_MASK : String := "binary"

/-- `MaskSeparationBase.SOFT_MASK`.  Modelled from the spec, as above. -/
def SOFT_MASK : String := "soft"

/-- The configuration fields of `DeepClustering` consumed by the pipeline,
together with the array dimensions (`C` channels, `T` frames, `M` mel bins,
`F` linear-frequency bins). -/
structure DCConfig where
  mask_type : String
  num_sources : ℕ
  max_distance : ℚ
  cutoff : ℚ
  num_channels : ℕ
  num_time : ℕ
  num_mels : ℕ
  num_freq : ℕ

/-- The external capabilities consumed by the class: `np.sqrt`, `np.log10`,
the magnitude spectrogram produced by the STFT (one `(F, T)` matrix per
channel), the librosa mel filter bank and its pseudo-inverse, the PyTorch
embedding model, and scikit-learn's fitted KMeans labels and centers. -/
structure DCEnv where
  sqrtQ : ℚ → ℚ
  log10Q : ℚ → ℚ
  magnitude : List (List (List ℚ))
  mel_filter_bank : List (List ℚ)
  inverse_mel_filter_bank : List (List ℚ)
  model_fn : List ℚ → List (List ℚ)
  kmeans_labels : List (List ℚ) → List ℕ
  kmeans_centers : List (List ℚ) → List (List ℚ)

/-- The mutable instance fields touched by a run.  `model_calls` counts the
invocations of the embedding network (for the cache claim). -/
structure DCState where
  stft_present : Bool
  mel_spectrogram : List ℚ
  silence_mask : List Bool
  embeddings : Option (List (List ℚ))
  assignments : List ℕ
  centroids : List (List ℚ)
  model_calls : ℕ

/-- A fresh instance before any run (`self.stft = None`, `self.embeddings = None`, ...). -/
def initial_state : DCState :=
  { stft_present := false, mel_spectrogram := [], silence_mask := [],
    embeddings := none, assignments := [], centroids := [], model_calls := 0 }

/-- `_compute_spectrograms` (lines 136-146): project the magnitude onto the
mel filter bank per channel, convert to log-power, take the silence mask on
the raw log-power, then subtract the global mean and divide by the global
standard deviation plus epsilon (the `np.std` of line 146 is evaluated on
the already-centered array, exactly as in the source). -/
def compute_spectrograms (env : DCEnv) (cfg : DCConfig) (st : DCState) : DCState :=
  let proj := mel_projection env.magnitude env.mel_filter_bank
    cfg.num_channels cfg.num_time cfg.num_mels cfg.num_freq
  let raw := raw_log_power env.log10Q proj
  let sil := raw.map (fun x => decide (cfg.cutoff < x))
  let centered := raw.map (fun x => x - meanQ raw)
  let mel := centered.map (fun x => x / std_denom env.sqrtQ centered)
  { st with stft_present := true, mel_spectrogram := mel, silence_mask := sil }

/-- `deep_clustering` (lines 148-167): compute embeddings only when the
cache is empty, then (re)fit KMeans on the cached embeddings and store the
1-based labels and the centroids. -/
def deep_clustering (env : DCEnv) (st : DCState) : DCState :=
  let fitted :=
    match st.embeddings with
    | some e => { st with embeddings := some e }
    | none =>
      { st with embeddings := some (env.model_fn st.mel_spectrogram),
                model_calls := st.model_calls + 1 }
  let emb := fitted.embeddings.getD []
  { fitted with
      assignments := (env.kmeans_labels emb).map (fun l => l + 1),
      centroids := env.kmeans_centers emb }

/-- The errors a run can surface: the `ValueError` of line 179, the Python
`UnboundLocalError` raised at line 193 when neither branch of the
`if/elif` on lines 184-192 assigned `mask`, and the `ValueError` of
line 261. -/
inductive RunError where
  | noStftData
  | unboundLocalMask
  | unknownMaskType
  deriving DecidableEq, Repr

/-- One iteration of the `for cluster_index` loop of `_extract_masks`
(lines 183-196): dispatch on the configured mask type; an unrecognized
value leaves `mask` unbound and line 193 raises. -/
def mask_for_cluster (env : DCEnv) (cfg : DCConfig) (st : DCState) (ch s : ℕ) :
    Except RunError (List ℚ) :=
  if cfg.mask_type = BINARY_MASK then
    .ok (binary_source_mask st.silence_mask st.assignments
      env.inverse_mel_filter_bank cfg.num_time cfg.num_mels cfg.num_freq ch s)
  else if cfg.mask_type = SOFT_MASK then
    .ok (soft_source_mask env.sqrtQ (st.embeddings.getD []) st.centroids
      st.silence_mask env.inverse_mel_filter_bank cfg.num_time cfg.num_mels
      cfg.num_freq cfg.max_distance ch s)
  else .error .unboundLocalMask

/-- `_extract_masks` (lines 170-206): precondition check, per-source loop,
and the soft-mask sharpening block. -/
def extract_masks (env : DCEnv) (cfg : DCConfig) (st : DCState) (ch : ℕ) :
    Except RunError (List (List ℚ)) :=
  if st.stft_present = false then .error .noStftData
  else do
    let l ← (List.range cfg.num_sources).mapM (fun k => mask_for_cluster env cfg st ch (k + 1))
    if cfg.mask_type = SOFT_MASK then pure (sharpen_masks l) else pure l

/-- The mask objects handed back to the caller (`masks.BinaryMask` /
`masks.SoftMask` are opaque external containers). -/
inductive MaskObj where
  | binaryM (data : List ℚ)
  | softM (data : List ℚ)
  deriving DecidableEq, Repr

/-- `np.round`: round half to even, returned as a float. -/
def round_half_even (x : ℚ) : ℚ :=
  let f : ℤ := ⌊x⌋
  let r : ℚ := x - f
  if r < 1 / 2 then (f : ℚ)
  else if (1 : ℚ) / 2 < r then (f + 1 : ℤ)
  else if f % 2 = 0 then (f : ℚ) else (f + 1 : ℤ)

/-- Lines 247-249: `np.dstack` of the per-channel masks of source `s`,
stored flat in `(F, T, C)` row-major order (channel fastest). -/
def collate_masks (uncollated : List (List ℚ)) (num_sources num_channels FT s : ℕ) :
    List ℚ :=
  (List.range FT).flatMap (fun b =>
    (List.range num_channels).map (fun ch =>
      (uncollated.getD (s + ch * num_sources) []).getD b 0))

/-- `run` (lines 231-263): compute spectrograms, cluster, extract the
per-channel masks, collate across channels, and wrap each collated mask in
a mask object, raising `ValueError('Unknown mask type ...')` on an
unrecognized mask type at assembly. -/
def run (env : DCEnv) (cfg : DCConfig) (st : DCState) :
    Except RunError (List MaskObj) := do
  let st1 := compute_spectrograms env cfg st
  let st2 := deep_clustering env st1
  let chunks ← (List.range cfg.num_channels).mapM (fun ch => extract_masks env cfg st2 ch)
  let uncollated := chunks.flatten
  let collated := (List.range cfg.num_sources).map (fun s =>
    collate_masks uncollated cfg.num_sources cfg.num_channels
      (cfg.num_freq * cfg.num_time) s)
  collated.mapM (fun m =>
    if cfg.mask_type = BINARY_MASK then .ok (MaskObj.binaryM (m.map round_half_even))
    else if cfg.mask_type = SOFT_MASK then .ok (MaskObj.softM m)
    else .error .unknownMaskType)

/-- The caller's audio signal, as far as the constructor's mutations are
observable: its sample rate and channel count. -/
structure AudioSignal where
  sample_rate : ℕ
  num_channels : ℕ
  deriving DecidableEq, Repr

/-- Modelled from the spec: `AudioSignal.resample` (an operation of the
external mixture source, §6) changes the signal's sample rate in place. -/
def resample_signal (sig : AudioSignal) (rate : ℕ) : AudioSignal :=
  { sig with sample_rate := rate }

/-- Modelled from the spec: `AudioSignal.to_mono(overwrite=True)` downmixes
the signal to one channel in place. -/
def to_mono (sig : AudioSignal) : AudioSignal :=
  { sig with num_channels := 1 }

/-- The effect of `__init__` (lines 81-83 and 110-113) on the caller's
signal object: resample if the rates differ, then downmix if `do_mono`.
Modelled from the spec: `MaskSeparationBase` stores the constructor's
`input_audio_signal` by reference, so `self.audio_signal` aliases the
caller's object and these operations mutate it. -/
def init_audio_effect (sig : AudioSignal) (resample_rate : ℕ) (do_mono : Bool) :
    AudioSignal :=
  let s1 := if sig.sample_rate ≠ resample_rate then resample_signal sig resample_rate else sig
  if do_mono then to_mono s1 else s1

theorem foldl_min_le_init (l : List ℚ) : ∀ a : ℚ, l.foldl min a ≤ a := by
  induction l with
  | nil => intro a; simp
  | cons b l ih =>
    intro a
    exact le_trans (ih (min a b)) (min_le_left a b)

theorem foldl_min_le_mem (l : List ℚ) : ∀ (a x : ℚ), x ∈ l → l.foldl min a ≤ x := by
  induction l with
  | nil => intro a x hx; cases hx
  | cons b l ih =>
    intro a x hx
    rcases List.mem_cons.mp hx with h | h
    · subst h
      exact le_trans (foldl_min_le_init l (min a x)) (min_le_right a x)
    · exact ih (min a b) x h

theorem foldl_min_mem (l : List ℚ) : ∀ a : ℚ, l.foldl min a = a ∨ l.foldl min a ∈ l := by
  induction l with
  | nil => intro a; left; rfl
  | cons b l ih =>
    intro a
    rcases ih (min a b) with h | h
    · rcases min_choice a b with hm | hm
      · left; rw [List.foldl_cons, h, hm]
      · right; rw [List.foldl_cons, h, hm]; exact List.mem_cons_self b l
    · right; exact List.mem_cons_of_mem b h

theorem foldl_max_init_le (l : List ℚ) : ∀ a : ℚ, a ≤ l.foldl max a := by
  induction l with
  | nil => intro a; simp
  | cons b l ih =>
    intro a
    exact le_trans (le_max_left a b) (ih (max a b))

theorem foldl_max_mem_le (l : List ℚ) : ∀ (a x : ℚ), x ∈ l → x ≤ l.foldl max a := by
  induction l with
  | nil => intro a x hx; cases hx
  | cons b l ih =>
    intro a x hx
    rcases List.mem_cons.mp hx with h | h
    · subst h
      exact le_trans (le_max_right a x) (foldl_max_init_le l (max a x))
    · exact ih (max a b) x h

theorem listMin_le (l : List ℚ) (x : ℚ) (hx : x ∈ l) : listMin l ≤ x := by
  cases l with
  | nil => cases hx
  | cons a l =>
    rcases List.mem_cons.mp hx with h | h
    · subst h; exact foldl_min_le_init l x
    · exact foldl_min_le_mem l a x h

theorem le_listMax (l : List ℚ) (x : ℚ) (hx : x ∈ l) : x ≤ listMax l := by
  cases l with
  | nil => cases hx
  | cons a l =>
    rcases List.mem_cons.mp hx with h | h
    · subst h; exact foldl_max_init_le l x
    · exact foldl_max_mem_le l a x h

theorem listMin_mem (l : List ℚ) (hl : l ≠ []) : listMin l ∈ l := by
  cases l with
  | nil => exact absurd rfl hl
  | cons a l =>
    rcases foldl_min_mem l a with h | h
    · rw [listMin, h]; exact List.mem_cons_self a l
    · exact List.mem_cons_of_mem a h

theorem getD_map_lt {α β : Type} (f : α → β) (l : List α) (i : ℕ) (d : β) (d' : α)
    (h : i < l.length) : (l.map f).getD i d = f (l.getD i d') := by
  rw [List.getD_eq_getElem?_getD, List.getD_eq_getElem?_getD, List.getElem?_map,
    List.getElem?_eq_getElem h]
  rfl

theorem getD_range_map {α : Type} (f : ℕ → α) (n i : ℕ) (d : α) (h : i < n) :
    ((List.range n).map f).getD i d = f i := by
  rw [getD_map_lt f (List.range n) i d 0 (by simpa using h),
    List.getD_eq_getElem?_getD, List.getElem?_range h]
  rfl

theorem getD_mem_or {α : Type} (l : List α) (n : ℕ) (d : α) :
    l.getD n d ∈ l ∨ l.getD n d = d := by
  rw [List.getD_eq_getElem?_getD]
  cases h : l[n]? with
  | none => right; rfl
  | some a => left; exact List.getElem?_mem h

theorem sq_dist_nonneg (e c : List ℚ) : 0 ≤ sq_dist e c := by
  apply List.sum_nonneg
  intro x hx
  induction e generalizing c with
  | nil => simp [sq_dist] at hx
  | cons a e ih =>
    cases c with
    | nil => simp [sq_dist] at hx
    | cons b c =>
      rcases List.mem_cons.mp hx with h | h
      · subst h; positivity
      · exact ih c h

theorem varQ_nonneg (l : List ℚ) : 0 ≤ varQ l := by
  apply div_nonneg
  · apply List.sum_nonneg
    intro x hx
    rcases List.mem_map.mp hx with ⟨y, _, rfl⟩
    positivity
  · exact_mod_cast Nat.zero_le _

theorem shifted_mask_nonneg (mask : List ℚ) (y : ℚ)
    (hy : y ∈ mask.map (fun x => x + |listMin mask|)) : 0 ≤ y := by
  rcases List.mem_map.mp hy with ⟨v, hv, rfl⟩
  have h1 : listMin mask ≤ v := listMin_le mask v hv
  have h2 : -|listMin mask| ≤ listMin mask := neg_abs_le _
  linarith

theorem mask_denom_pos (mask : List ℚ) : 0 < mask_denom mask := by
  have heps : (0 : ℚ) < eps7 := by norm_num [eps7]
  cases mask with
  | nil => simp only [mask_denom, List.map_nil]; simpa [listMax] using heps
  | cons a l =>
    have hmem : a + |listMin (a :: l)| ∈
        (a :: l).map (fun x => x + |listMin (a :: l)|) :=
      List.mem_map_of_mem _ (List.mem_cons_self a l)
    have h0 : 0 ≤ a + |listMin (a :: l)| := shifted_mask_nonneg (a :: l) _ hmem
    have h1 : a + |listMin (a :: l)| ≤
        listMax ((a :: l).map (fun x => x + |listMin (a :: l)|)) :=
      le_listMax _ _ hmem
    unfold mask_denom
    linarith

theorem normalize_mask_bounds (mask : List ℚ) (x : ℚ) (hx : x ∈ normalize_mask mask) :
    0 ≤ x ∧ x < 1 := by
  rcases List.mem_map.mp hx with ⟨y, hy, rfl⟩
  have hy0 : 0 ≤ y := shifted_mask_nonneg mask y hy
  have hD : 0 < mask_denom mask := mask_denom_pos mask
  have hyM : y ≤ listMax (mask.map (fun x => x + |listMin mask|)) := by
    rcases List.mem_map.mp hy with ⟨v, hv, rfl⟩
    exact le_listMax _ _ (List.mem_map_of_mem _ hv)
  constructor
  · exact div_nonneg hy0 hD.le
  · rw [div_lt_one hD]
    have heps : (0 : ℚ) < eps7 := by norm_num [eps7]
    unfold mask_denom
    linarith

theorem normalize_mask_getD_nonneg (mask : List ℚ) (b : ℕ) :
    0 ≤ (normalize_mask mask).getD b 0 := by
  rcases getD_mem_or (normalize_mask mask) b 0 with h | h
  · exact (normalize_mask_bounds mask _ h).1
  · rw [h]

theorem length_normalize_mask (mask : List ℚ) :
    (normalize_mask mask).length = mask.length := by
  simp [normalize_mask]

theorem length_proj_mask (mel : List ℚ) (invFB : List (List ℚ)) (T M F : ℕ) :
    (proj_mask mel invFB T M F).length = F * T := by
  simp [proj_mask]

theorem length_soft_source_mask (sqrtQ : ℚ → ℚ) (emb cents : List (List ℚ))
    (sil : List Bool) (invFB : List (List ℚ)) (T M F : ℕ) (maxD : ℚ) (ch s : ℕ) :
    (soft_source_mask sqrtQ emb cents sil invFB T M F maxD ch s).length = F * T := by
  rw [soft_source_mask, length_normalize_mask, length_proj_mask]

theorem foldl_min_map_mono (f : ℚ → ℚ) (hf : Monotone f) (l : List ℚ) :
    ∀ a : ℚ, (l.map f).foldl min (f a) = f (l.foldl min a) := by
  induction l with
  | nil => intro a; rfl
  | cons b l ih =>
    intro a
    simp only [List.map_cons, List.foldl_cons, ← hf.map_min]
    exact ih (min a b)

theorem listMin_map_mono (f : ℚ → ℚ) (hf : Monotone f) (l : List ℚ) (hl : l ≠ []) :
    listMin (l.map f) = f (listMin l) := by
  cases l with
  | nil => exact absurd rfl hl
  | cons a l =>
    simp only [List.map_cons, listMin]
    exact foldl_min_map_mono f hf l a

theorem chunk2_flatMap_pair {α : Type} (f g : α → ℚ) (l : List α) :
    chunk2 (l.flatMap (fun x => [f x, g x])) = l.map (fun x => (f x, g x)) := by
  induction l with
  | nil => rfl
  | cons a l ih =>
    rw [List.flatMap_cons]
    show chunk2 (f a :: g a :: l.flatMap fun x => [f x, g x]) = _
    rw [chunk2, ih, List.map_cons]

theorem map_flatMap_pair {α : Type} (h : ℚ → ℚ) (f g : α → ℚ) (l : List α) :
    (l.flatMap (fun x => [f x, g x])).map h =
      l.flatMap (fun x => [h (f x), h (g x)]) := by
  induction l with
  | nil => rfl
  | cons a l ih => simp only [List.flatMap_cons, List.map_append, ih, List.map_cons,
      List.map_nil]

theorem getD_flatMap_pair {α : Type} (f g : α → ℚ) (d : ℚ) (l : List α) :
    ∀ k : ℕ, (hk : k < l.length) →
      (l.flatMap (fun x => [f x, g x])).getD (2 * k) d = f l[k] ∧
      (l.flatMap (fun x => [f x, g x])).getD (2 * k + 1) d = g l[k] := by
  induction l with
  | nil => intro k hk; cases hk
  | cons a l ih =>
    intro k hk
    cases k with
    | zero => simp [List.flatMap_cons]
    | succ k =>
      have h2 : 2 * (k + 1) = (2 * k + 1) + 1 := by omega
      have hk' : k < l.length := by simpa using Nat.lt_of_succ_lt_succ hk
      rcases ih k hk' with ⟨h1, h2'⟩
      constructor
      · rw [h2, List.flatMap_cons]
        simpa using h1
      · rw [h2, List.flatMap_cons]
        simpa using h2'

theorem stack_flat_two (m1 m2 : List ℚ) :
    stack_flat [m1, m2] =
      (List.range m1.length).flatMap (fun b => [m1.getD b 0, m2.getD b 0]) := by
  simp [stack_flat]

theorem sharpen_flat_two (m1 m2 : List ℚ) :
    sharpen_flat [m1, m2] = (List.range m1.length).flatMap (fun b =>
      [(m1.getD b 0) ^ 3 / ((m1.getD b 0) ^ 3 + (m2.getD b 0) ^ 3),
       (m2.getD b 0) ^ 3 / ((m1.getD b 0) ^ 3 + (m2.getD b 0) ^ 3)]) := by
  rw [sharpen_flat, cube_pairs, stack_flat_two, map_flatMap_pair, chunk2_flatMap_pair]
  induction (List.range m1.length) with
  | nil => rfl
  | cons a l ih => simp only [List.map_cons, List.flatMap_cons, ih]

theorem sharpen_denoms_two (m1 m2 : List ℚ) :
    sharpen_denoms [m1, m2] = (List.range m1.length).map (fun b =>
      (m1.getD b 0) ^ 3 + (m2.getD b 0) ^ 3) := by
  rw [sharpen_denoms, cube_pairs, stack_flat_two, map_flatMap_pair, chunk2_flatMap_pair]
  simp

theorem sharpen_masks_two (m1 m2 : List ℚ) :
    sharpen_masks [m1, m2] =
      [(List.range m1.length).map (fun b =>
          (m1.getD b 0) ^ 3 / ((m1.getD b 0) ^ 3 + (m2.getD b 0) ^ 3)),
       (List.range m1.length).map (fun b =>
          (m2.getD b 0) ^ 3 / ((m1.getD b 0) ^ 3 + (m2.getD b 0) ^ 3))] := by
  have hlen2 : ([m1, m2] : List (List ℚ)).length = 2 := rfl
  have hr2 : List.range 2 = [0, 1] := rfl
  have hA : (List.range m1.length).map
      (fun b => (sharpen_flat [m1, m2]).getD (b * 2 + 0) 0) =
      (List.range m1.length).map (fun b =>
        (m1.getD b 0) ^ 3 / ((m1.getD b 0) ^ 3 + (m2.getD b 0) ^ 3)) := by
    apply List.map_congr_left
    intro b hb
    have hb' : b < m1.length := List.mem_range.mp hb
    have h := (getD_flatMap_pair
      (fun b => (m1.getD b 0) ^ 3 / ((m1.getD b 0) ^ 3 + (m2.getD b 0) ^ 3))
      (fun b => (m2.getD b 0) ^ 3 / ((m1.getD b 0) ^ 3 + (m2.getD b 0) ^ 3))
      0 (List.range m1.length) b (by simpa using hb')).1
    rw [sharpen_flat_two, show b * 2 + 0 = 2 * b by omega, h]
    simp [List.getElem_range]
  have hB : (List.range m1.length).map
      (fun b => (sharpen_flat [m1, m2]).getD (b * 2 + 1) 0) =
      (List.range m1.length).map (fun b =>
        (m2.getD b 0) ^ 3 / ((m1.getD b 0) ^ 3 + (m2.getD b 0) ^ 3)) := by
    apply List.map_congr_left
    intro b hb
    have hb' : b < m1.length := List.mem_range.mp hb
    have h := (getD_flatMap_pair
      (fun b => (m1.getD b 0) ^ 3 / ((m1.getD b 0) ^ 3 + (m2.getD b 0) ^ 3))
      (fun b => (m2.getD b 0) ^ 3 / ((m1.getD b 0) ^ 3 + (m2.getD b 0) ^ 3))
      0 (List.range m1.length) b (by simpa using hb')).2
    rw [sharpen_flat_two, show b * 2 + 1 = 2 * b + 1 by omega, h]
    simp [List.getElem_range]
  rw [sharpen_masks, hlen2, hr2]
  simp only [List.map_cons, List.map_nil, List.headD_cons]
  rw [hA, hB]

theorem sum_map_sub (l : List ℚ) (c : ℚ) :
    (l.map (fun x => x - c)).sum = l.sum - l.length * c := by
  induction l with
  | nil => simp
  | cons a l ih =>
    simp only [List.map_cons, List.sum_cons, ih, List.length_cons]
    push_cast
    ring

theorem meanQ_map_sub (l : List ℚ) (hl : l ≠ []) (c : ℚ) :
    meanQ (l.map (fun x => x - c)) = meanQ l - c := by
  have hn : (l.length : ℚ) ≠ 0 := by
    exact_mod_cast (List.length_pos.mpr hl).ne'
  simp only [meanQ, List.length_map, sum_map_sub]
  field_simp

theorem varQ_center (l : List ℚ) (hl : l ≠ []) :
    varQ (l.map (fun x => x - meanQ l)) = varQ l := by
  have hm : meanQ (l.map (fun x => x - meanQ l)) = 0 := by
    rw [meanQ_map_sub l hl (meanQ l), sub_self]
  unfold varQ
  rw [hm, List.map_map]
  simp only [Function.comp_def, sub_zero]

/-- C3: for every channel and every source index `s ≥ 1` under the binary
mask policy, the mel-domain mask value is 1 exactly at bins where the
silence mask is true and the cluster assignment equals `s`, and 0 at every
other bin. -/
theorem c3_binary_mel_mask (sil : List Bool) (assign : List ℕ) (T M ch t m s : ℕ)
    (ht : t < T) (hm : m < M) (hs : 1 ≤ s) :
    (binary_mel_mask sil assign (T * M) ch s).getD (t * M + m) 0 =
      if sil.getD (ch * (T * M) + (t * M + m)) false = true ∧
          assign.getD (ch * (T * M) + (t * M + m)) 0 = s
      then 1 else 0 := by
  have hj : t * M + m < T * M := by
    calc t * M + m < t * M + M := by omega
    _ = (t + 1) * M := by ring
    _ ≤ T * M := Nat.mul_le_mul_right M ht
  rw [binary_mel_mask, getD_range_map _ _ _ _ hj]
  cases hb : sil.getD (ch * (T * M) + (t * M + m)) false
  · have hs0 : ¬ ((0 : ℕ) = s) := by omega
    simp [hb, hs0]
  · simp [hb]

/-- Witness for `c3_binary_mel_mask` at a one-bin configuration with the
silence gate open and assignment 1. -/
theorem c3_binary_mel_mask_witness :
    (0 < 1 ∧ 0 < 1 ∧ 1 ≤ 1) ∧
    (binary_mel_mask [true] [1] (1 * 1) 0 1).getD (0 * 1 + 0) 0 =
      if ([true] : List Bool).getD (0 * (1 * 1) + (0 * 1 + 0)) false = true ∧
          ([1] : List ℕ).getD (0 * (1 * 1) + (0 * 1 + 0)) 0 = 1
      then 1 else 0 :=
  ⟨⟨Nat.one_pos, Nat.one_pos, le_refl 1⟩,
    c3_binary_mel_mask [true] [1] 1 1 0 0 0 1 Nat.one_pos Nat.one_pos (le_refl 1)⟩

/-- C1: under the soft policy, the mel-domain mask value of source `s` at
bin `(t, m)` of channel `ch` is obtained by taking the Euclidean distance
from the bin's embedding to centroid `s`, adding the minimum of all
distances, dividing by (the maximum of the shifted distances + epsilon),
forcing any value strictly above `max_distance` to 1, inverting as
`1 - value`, and multiplying by the silence mask. -/
theorem c1_soft_mel_mask (sqrtQ : ℚ → ℚ) (emb cents : List (List ℚ)) (sil : List Bool)
    (C T M : ℕ) (maxD : ℚ) (ch t m s : ℕ)
    (hch : ch < C) (ht : t < T) (hm : m < M) (hlen : emb.length = C * (T * M)) :
    (soft_mel_mask sqrtQ emb cents sil (T * M) maxD ch s).getD (t * M + m) 0 =
      bool_to_q (sil.getD (ch * (T * M) + (t * M + m)) false) *
        (1 -
          (if maxD <
              ((soft_distances sqrtQ emb (cents.getD (s - 1) [])).getD
                  (ch * (T * M) + (t * M + m)) 0 +
                listMin (soft_distances sqrtQ emb (cents.getD (s - 1) []))) /
              (listMax (shift_min (soft_distances sqrtQ emb (cents.getD (s - 1) []))) + eps7)
            then 1
            else
              ((soft_distances sqrtQ emb (cents.getD (s - 1) [])).getD
                  (ch * (T * M) + (t * M + m)) 0 +
                listMin (soft_distances sqrtQ emb (cents.getD (s - 1) []))) /
              (listMax (shift_min (soft_distances sqrtQ emb (cents.getD (s - 1) []))) + eps7))) := by
  have hj : t * M + m < T * M := by
    calc t * M + m < t * M + M := by omega
    _ = (t + 1) * M := by ring
    _ ≤ T * M := Nat.mul_le_mul_right M ht
  have hidx : ch * (T * M) + (t * M + m) < C * (T * M) := by
    calc ch * (T * M) + (t * M + m) < ch * (T * M) + (T * M) := by omega
    _ = (ch + 1) * (T * M) := by ring
    _ ≤ C * (T * M) := Nat.mul_le_mul_right (T * M) hch
  set c0 := cents.getD (s - 1) [] with hc0
  set d := soft_distances sqrtQ emb c0 with hdd
  have hdlen : d.length = C * (T * M) := by
    rw [hdd, soft_distances, List.length_map, hlen]
  set idx := ch * (T * M) + (t * M + m) with hidxd
  have h1 : idx < d.length := by rw [hdlen]; exact hidx
  have h2 : idx < (shift_min d).length := by rw [shift_min, List.length_map]; exact h1
  have h3 : idx < (norm_dist (shift_min d)).length := by
    rw [norm_dist, List.length_map]; exact h2
  have h4 : idx < (clip_max maxD (norm_dist (shift_min d))).length := by
    rw [clip_max, List.length_map]; exact h3
  rw [soft_mel_mask, getD_range_map _ _ _ _ hj]
  congr 1
  rw [soft_affinity]
  rw [getD_map_lt (fun x => 1 - x) _ _ 0 0 h4]
  rw [clip_max, getD_map_lt (fun x => if maxD < x then 1 else x) _ _ 0 0 h3]
  rw [norm_dist, getD_map_lt (fun x => x / dist_denom (shift_min d)) _ _ 0 0 h2]
  rw [shift_min, getD_map_lt (fun x => x + listMin d) _ _ 0 0 h1]
  rw [dist_denom, ← shift_min]

/-- Witness for `c1_soft_mel_mask` at a one-bin, one-channel configuration. -/
theorem c1_soft_mel_mask_witness :
    (0 < 1 ∧ ([[(0 : ℚ)]] : List (List ℚ)).length = 1 * (1 * 1)) ∧
    (soft_mel_mask id [[0]] [[0], [0]] [true] (1 * 1) 1 0 1).getD (0 * 1 + 0) 0 =
      bool_to_q (([true] : List Bool).getD (0 * (1 * 1) + (0 * 1 + 0)) false) *
        (1 -
          (if (1 : ℚ) <
              ((soft_distances id [[0]] (([[0], [0]] : List (List ℚ)).getD (1 - 1) [])).getD
                  (0 * (1 * 1) + (0 * 1 + 0)) 0 +
                listMin (soft_distances id [[0]] (([[0], [0]] : List (List ℚ)).getD (1 - 1) []))) /
              (listMax (shift_min (soft_distances id [[0]]
                (([[0], [0]] : List (List ℚ)).getD (1 - 1) []))) + eps7)
            then 1
            else
              ((soft_distances id [[0]] (([[0], [0]] : List (List ℚ)).getD (1 - 1) [])).getD
                  (0 * (1 * 1) + (0 * 1 + 0)) 0 +
                listMin (soft_distances id [[0]] (([[0], [0]] : List (List ℚ)).getD (1 - 1) []))) /
              (listMax (shift_min (soft_distances id [[0]]
                (([[0], [0]] : List (List ℚ)).getD (1 - 1) []))) + eps7))) :=
  ⟨⟨Nat.one_pos, rfl⟩,
    c1_soft_mel_mask id [[0]] [[0], [0]] [true] 1 1 1 1 0 0 0 1
      Nat.one_pos Nat.one_pos Nat.one_pos rfl⟩

/-- C10: under the soft policy, when `max_distance ≥ 1` (including the
default `max_distance = 1`) the clipping step never modifies any value,
because after dividing by (the maximum shifted distance + epsilon) every
normalized distance is strictly less than 1. -/
theorem c10_clip_noop (sqrtQ : ℚ → ℚ) (emb : List (List ℚ)) (cent : List ℚ)
    (maxD : ℚ) (hsq : ∀ x : ℚ, 0 ≤ x → 0 ≤ sqrtQ x) (hmd : 1 ≤ maxD) :
    clip_max maxD (norm_dist (shift_min (soft_distances sqrtQ emb cent))) =
      norm_dist (shift_min (soft_distances sqrtQ emb cent)) ∧
    ∀ x ∈ norm_dist (shift_min (soft_distances sqrtQ emb cent)), x < 1 := by
  set d := soft_distances sqrtQ emb cent with hdd
  have hd0 : ∀ x ∈ d, 0 ≤ x := by
    intro x hx
    rcases List.mem_map.mp hx with ⟨e, _, rfl⟩
    exact hsq _ (sq_dist_nonneg e cent)
  have heps : (0 : ℚ) < eps7 := by norm_num [eps7]
  have key : ∀ x ∈ norm_dist (shift_min d), x < 1 := by
    intro x hx
    rcases List.mem_map.mp hx with ⟨y, hy, rfl⟩
    have hy0 : 0 ≤ y := by
      rcases List.mem_map.mp hy with ⟨z, hz, rfl⟩
      have hz0 := hd0 z hz
      have hdne : d ≠ [] := List.ne_nil_of_mem hz
      have hmin0 : 0 ≤ listMin d := hd0 _ (listMin_mem d hdne)
      linarith
    have hyM : y ≤ listMax (shift_min d) := le_listMax _ _ hy
    have hD : 0 < dist_denom (shift_min d) := by
      rw [dist_denom]; linarith
    rw [div_lt_one hD, dist_denom]
    linarith
  refine ⟨?_, key⟩
  rw [clip_max]
  have hcong : ∀ x ∈ norm_dist (shift_min d),
      (if maxD < x then (1 : ℚ) else x) = id x := by
    intro x hx
    have hx1 := key x hx
    rw [if_neg (not_lt.mpr (le_of_lt (lt_of_lt_of_le hx1 hmd)))]
    rfl
  rw [List.map_congr_left hcong, List.map_id]

/-- Witness for `c10_clip_noop` at the default `max_distance = 1` with the
identity as square root. -/
theorem c10_clip_noop_witness :
    (∀ x : ℚ, 0 ≤ x → 0 ≤ id x) ∧ (1 : ℚ) ≤ 1 ∧
    (clip_max 1 (norm_dist (shift_min (soft_distances id [[0]] [0]))) =
       norm_dist (shift_min (soft_distances id [[0]] [0])) ∧
     ∀ x ∈ norm_dist (shift_min (soft_distances id [[0]] [0])), x < 1) :=
  ⟨fun _ hx => hx, le_refl 1,
    c10_clip_noop id [[0]] [0] 1 (fun _ hx => hx) (le_refl 1)⟩

/-- C7 counterexample: the claim that the post-projection normalization
leaves a mask whose minimum is zero fails on the concrete projected mask
`[1]` (mel mask `[1]`, pseudo-inverse filter bank `[[1]]`): after adding
`|min| = 1` and dividing by `(max + eps)` the minimum is `2/(2 + 1e-7)`,
not zero. -/
theorem c7_counterexample :
    listMin (normalize_mask (proj_mask [1] [[1]] 1 1 1)) ≠ 0 := by
  have h1 : proj_mask [1] [[1]] 1 1 1 = [1] := by
    norm_num [proj_mask, mentry, List.range_succ]
  rw [h1]
  norm_num [normalize_mask, mask_denom, listMin, listMax, eps7]

/-- C7 (amended): every per-source mask is normalized after projection by
adding the absolute value of its minimum and dividing by (its maximum +
epsilon), yielding values in `[0, 1)`; the resulting minimum is zero
whenever the projected mask's minimum is at most zero (an entirely
positive projected mask instead keeps a positive floor). -/
theorem c7_normalize_after_projection (mel : List ℚ) (invFB : List (List ℚ))
    (T M F : ℕ) :
    (∀ x ∈ normalize_mask (proj_mask mel invFB T M F), 0 ≤ x ∧ x < 1) ∧
    (0 < F * T → listMin (proj_mask mel invFB T M F) ≤ 0 →
      listMin (normalize_mask (proj_mask mel invFB T M F)) = 0) := by
  refine ⟨fun x hx => normalize_mask_bounds _ x hx, fun hFT hmin => ?_⟩
  set P := proj_mask mel invFB T M F with hP
  have hne : P ≠ [] := by
    apply List.ne_nil_of_length_pos
    rw [hP, length_proj_mask]
    exact hFT
  have hD : 0 < mask_denom P := mask_denom_pos P
  have hmono : Monotone (fun x : ℚ => (x + |listMin P|) / mask_denom P) := by
    intro a b hab
    exact (div_le_div_iff_of_pos_right hD).mpr (by linarith)
  have hnm : normalize_mask P = P.map (fun x => (x + |listMin P|) / mask_denom P) := by
    rw [normalize_mask, List.map_map]
    rfl
  rw [hnm, listMin_map_mono _ hmono P hne, abs_of_nonpos hmin]
  simp

/-- Witness for `c7_normalize_after_projection` on the projected mask `[0]`. -/
theorem c7_normalize_after_projection_witness :
    (0 < 1 * 1 ∧ listMin (proj_mask [0] [[1]] 1 1 1) ≤ 0) ∧
    (∀ x ∈ normalize_mask (proj_mask [0] [[1]] 1 1 1), 0 ≤ x ∧ x < 1) ∧
    listMin (normalize_mask (proj_mask [0] [[1]] 1 1 1)) = 0 := by
  have h0 : proj_mask [0] [[1]] 1 1 1 = [0] := by
    norm_num [proj_mask, mentry, List.range_succ]
  have hmin : listMin (proj_mask [0] [[1]] 1 1 1) ≤ 0 := by
    rw [h0]; norm_num [listMin]
  exact ⟨⟨Nat.one_pos, hmin⟩,
    (c7_normalize_after_projection [0] [[1]] 1 1 1).1,
    (c7_normalize_after_projection [0] [[1]] 1 1 1).2 Nat.one_pos hmin⟩

theorem sharpen_two_bounds (m1 m2 : List ℚ)
    (h1 : ∀ b : ℕ, 0 ≤ m1.getD b 0) (h2 : ∀ b : ℕ, 0 ≤ m2.getD b 0)
    (hden : ∀ q ∈ sharpen_denoms [m1, m2], q ≠ 0) :
    (∀ mask ∈ sharpen_masks [m1, m2], ∀ x ∈ mask, 0 ≤ x ∧ x ≤ 1) ∧
    (∀ b : ℕ, b < m1.length →
      ((sharpen_masks [m1, m2]).getD 0 []).getD b 0 +
        ((sharpen_masks [m1, m2]).getD 1 []).getD b 0 = 1) := by
  have hq : ∀ b ∈ List.range m1.length,
      (m1.getD b 0) ^ 3 + (m2.getD b 0) ^ 3 ≠ 0 := by
    intro b hb
    apply hden
    rw [sharpen_denoms_two]
    exact List.mem_map_of_mem _ hb
  have hqpos : ∀ b ∈ List.range m1.length,
      0 < (m1.getD b 0) ^ 3 + (m2.getD b 0) ^ 3 := by
    intro b hb
    have ha := h1 b
    have hc := h2 b
    have : 0 ≤ (m1.getD b 0) ^ 3 + (m2.getD b 0) ^ 3 := by positivity
    exact lt_of_le_of_ne this (Ne.symm (hq b hb))
  constructor
  · intro mask hmask x hx
    rw [sharpen_masks_two] at hmask
    have hbound1 : ∀ x ∈ (List.range m1.length).map (fun b =>
        (m1.getD b 0) ^ 3 / ((m1.getD b 0) ^ 3 + (m2.getD b 0) ^ 3)),
        0 ≤ x ∧ x ≤ 1 := by
      intro x hx
      rcases List.mem_map.mp hx with ⟨b, hb, rfl⟩
      have hp := hqpos b hb
      have ha := h1 b
      have hc := h2 b
      refine ⟨div_nonneg (by positivity) hp.le, ?_⟩
      rw [div_le_one hp]
      have : 0 ≤ (m2.getD b 0) ^ 3 := by positivity
      linarith
    have hbound2 : ∀ x ∈ (List.range m1.length).map (fun b =>
        (m2.getD b 0) ^ 3 / ((m1.getD b 0) ^ 3 + (m2.getD b 0) ^ 3)),
        0 ≤ x ∧ x ≤ 1 := by
      intro x hx
      rcases List.mem_map.mp hx with ⟨b, hb, rfl⟩
      have hp := hqpos b hb
      have ha := h1 b
      have hc := h2 b
      refine ⟨div_nonneg (by positivity) hp.le, ?_⟩
      rw [div_le_one hp]
      have : 0 ≤ (m1.getD b 0) ^ 3 := by positivity
      linarith
    rcases List.mem_cons.mp hmask with h | h
    · subst h; exact hbound1 x hx
    · rcases List.mem_cons.mp h with h' | h'
      · subst h'; exact hbound2 x hx
      · cases h'
  · intro b hb
    rw [sharpen_masks_two]
    have hbr : b ∈ List.range m1.length := List.mem_range.mpr hb
    simp only [List.getD_cons_zero, List.getD_cons_succ]
    rw [getD_range_map _ _ _ _ hb, getD_range_map _ _ _ _ hb]
    rw [div_add_div_same, div_self (hq b hbr)]

/-- C2 counterexample: on a fully silenced one-bin channel (silence mask
`[false]`) the soft two-source pipeline produces the stacked mask values
`(0, 0)`, the sharpening renormalization divides by a zero cube-sum, and
the per-bin mask values do not sum to 1 within the 1e-6 tolerance. -/
theorem c2_counterexample :
    ¬ (∀ b : ℕ, b < 1 * 1 →
      |((sharpen_masks (soft_channel_masks id [[0]] [[0], [0]] [false] [[1]] 1 1 1 1 0 2)).getD 0 []).getD b 0 +
        ((sharpen_masks (soft_channel_masks id [[0]] [[0], [0]] [false] [[1]] 1 1 1 1 0 2)).getD 1 []).getD b 0
        - 1| ≤ tol6) := by
  intro h
  have h0 := h 0 Nat.one_pos
  have hscm : soft_channel_masks id [[0]] [[0], [0]] [false] [[1]] 1 1 1 1 0 2 =
      [[0], [0]] := by
    norm_num [soft_channel_masks, soft_source_mask, normalize_mask, mask_denom,
      proj_mask, mentry, soft_mel_mask, soft_affinity, clip_max, norm_dist,
      shift_min, dist_denom, soft_distances, sq_dist, listMin, listMax,
      bool_to_q, eps7, List.range_succ]
  rw [hscm] at h0
  have hsm : sharpen_masks [[(0 : ℚ)], [(0 : ℚ)]] = [[0], [0]] := by
    rw [sharpen_masks_two]
    norm_num [List.range_succ]
  rw [hsm] at h0
  norm_num [tol6] at h0

/-- C2 (amended): in the soft two-source configuration, provided the
per-bin cube-sum denominators of the sharpening step are all nonzero
(which fails on degenerate input such as a fully silenced channel, since
line 202 adds no epsilon), every element of every returned mask lies in
`[0, 1]` and at every bin the two per-source values sum to 1, hence within
the 1e-6 tolerance. -/
theorem c2_soft_masks (sqrtQ : ℚ → ℚ) (emb cents : List (List ℚ)) (sil : List Bool)
    (invFB : List (List ℚ)) (T M F : ℕ) (maxD : ℚ) (ch : ℕ)
    (hden : ∀ q ∈ sharpen_denoms
      (soft_channel_masks sqrtQ emb cents sil invFB T M F maxD ch 2), q ≠ 0) :
    (∀ mask ∈ sharpen_masks (soft_channel_masks sqrtQ emb cents sil invFB T M F maxD ch 2),
      ∀ x ∈ mask, 0 ≤ x ∧ x ≤ 1) ∧
    (∀ b : ℕ, b < F * T →
      |((sharpen_masks (soft_channel_masks sqrtQ emb cents sil invFB T M F maxD ch 2)).getD 0 []).getD b 0 +
        ((sharpen_masks (soft_channel_masks sqrtQ emb cents sil invFB T M F maxD ch 2)).getD 1 []).getD b 0
        - 1| ≤ tol6) := by
  have hscm : soft_channel_masks sqrtQ emb cents sil invFB T M F maxD ch 2 =
      [soft_source_mask sqrtQ emb cents sil invFB T M F maxD ch 1,
       soft_source_mask sqrtQ emb cents sil invFB T M F maxD ch 2] := rfl
  rw [hscm] at hden ⊢
  have h1b : ∀ b : ℕ,
      0 ≤ (soft_source_mask sqrtQ emb cents sil invFB T M F maxD ch 1).getD b 0 :=
    fun b => normalize_mask_getD_nonneg _ b
  have h2b : ∀ b : ℕ,
      0 ≤ (soft_source_mask sqrtQ emb cents sil invFB T M F maxD ch 2).getD b 0 :=
    fun b => normalize_mask_getD_nonneg _ b
  have main := sharpen_two_bounds _ _ h1b h2b hden
  refine ⟨main.1, fun b hb => ?_⟩
  have hb1 : b < (soft_source_mask sqrtQ emb cents sil invFB T M F maxD ch 1).length := by
    rw [length_soft_source_mask]
    exact hb
  rw [main.2 b hb1]
  norm_num [tol6]

/-- Witness for `c2_soft_masks` on a one-bin channel with the silence gate
open, where the per-bin cube-sum denominator is nonzero. -/
theorem c2_soft_masks_witness :
    (∀ q ∈ sharpen_denoms
      (soft_channel_masks id [[0]] [[0], [0]] [true] [[1]] 1 1 1 1 0 2), q ≠ 0) ∧
    ((∀ mask ∈ sharpen_masks (soft_channel_masks id [[0]] [[0], [0]] [true] [[1]] 1 1 1 1 0 2),
        ∀ x ∈ mask, 0 ≤ x ∧ x ≤ 1) ∧
     (∀ b : ℕ, b < 1 * 1 →
       |((sharpen_masks (soft_channel_masks id [[0]] [[0], [0]] [true] [[1]] 1 1 1 1 0 2)).getD 0 []).getD b 0 +
         ((sharpen_masks (soft_channel_masks id [[0]] [[0], [0]] [true] [[1]] 1 1 1 1 0 2)).getD 1 []).getD b 0
         - 1| ≤ tol6)) := by
  have hscm : soft_channel_masks id [[0]] [[0], [0]] [true] [[1]] 1 1 1 1 0 2 =
      [[20000000 / 20000001], [20000000 / 20000001]] := by
    norm_num [soft_channel_masks, soft_source_mask, normalize_mask, mask_denom,
      proj_mask, mentry, soft_mel_mask, soft_affinity, clip_max, norm_dist,
      shift_min, dist_denom, soft_distances, sq_dist, listMin, listMax,
      bool_to_q, eps7, List.range_succ]
  have hden : ∀ q ∈ sharpen_denoms
      (soft_channel_masks id [[0]] [[0], [0]] [true] [[1]] 1 1 1 1 0 2), q ≠ 0 := by
    rw [hscm, sharpen_denoms_two]
    norm_num [List.range_succ]
  exact ⟨hden, c2_soft_masks id [[0]] [[0], [0]] [true] [[1]] 1 1 1 1 0 hden⟩

/-- C5 counterexample: not every division in mask construction is
epsilon-guarded.  The per-bin renormalization of the soft-mask sharpening
step (line 202) divides by the raw cube-sum, and on the concrete
fully-silenced one-bin input that denominator is 0. -/
theorem c5_counterexample :
    ¬ (∀ (sqrtQ : ℚ → ℚ) (emb cents : List (List ℚ)) (sil : List Bool)
        (invFB : List (List ℚ)) (T M F : ℕ) (maxD : ℚ) (ch : ℕ),
        ∀ q ∈ sharpen_denoms
          (soft_channel_masks sqrtQ emb cents sil invFB T M F maxD ch 2), q ≠ 0) := by
  intro h
  have hscm : soft_channel_masks id [[0]] [[0], [0]] [false] [[1]] 1 1 1 1 0 2 =
      [[0], [0]] := by
    norm_num [soft_channel_masks, soft_source_mask, normalize_mask, mask_denom,
      proj_mask, mentry, soft_mel_mask, soft_affinity, clip_max, norm_dist,
      shift_min, dist_denom, soft_distances, sq_dist, listMin, listMax,
      bool_to_q, eps7, List.range_succ]
  have hmem : (0 : ℚ) ∈ sharpen_denoms
      (soft_channel_masks id [[0]] [[0], [0]] [false] [[1]] 1 1 1 1 0 2) := by
    rw [hscm, sharpen_denoms_two]
    norm_num [List.range_succ]
  exact h id [[0]] [[0], [0]] [false] [[1]] 1 1 1 1 0 0 hmem rfl

/-- C5 (amended): the divisions by the standard deviation (line 146), by
the shifted-distance maximum (line 189) and by the shifted-mask maximum
(line 195) all add `1e-7` to the denominator and are strictly positive on
the (nonnegative) data they receive; the per-bin sharpening
renormalization (line 202) carries no epsilon — its denominator is
nonnegative but vanishes exactly when both stacked mask values at the bin
are zero. -/
theorem c5_division_guards :
    (∀ sqrtQ : ℚ → ℚ, (∀ x : ℚ, 0 ≤ x → 0 ≤ sqrtQ x) →
      ∀ l : List ℚ, 0 < std_denom sqrtQ l) ∧
    (∀ d : List ℚ, (∀ x ∈ d, 0 ≤ x) → 0 < dist_denom (shift_min d)) ∧
    (∀ mask : List ℚ, 0 < mask_denom mask) ∧
    (∀ m1 m2 : List ℚ, (∀ b : ℕ, 0 ≤ m1.getD b 0) → (∀ b : ℕ, 0 ≤ m2.getD b 0) →
      ∀ b : ℕ, b < m1.length →
        0 ≤ (sharpen_denoms [m1, m2]).getD b 0 ∧
        ((sharpen_denoms [m1, m2]).getD b 0 = 0 ↔
          m1.getD b 0 = 0 ∧ m2.getD b 0 = 0)) := by
  have heps : (0 : ℚ) < eps7 := by norm_num [eps7]
  refine ⟨?_, ?_, mask_denom_pos, ?_⟩
  · intro sqrtQ hsq l
    have := hsq (varQ l) (varQ_nonneg l)
    rw [std_denom]
    linarith
  · intro d hd
    cases d with
    | nil =>
      rw [shift_min, List.map_nil, dist_denom]
      simpa [listMax] using heps
    | cons a l =>
      have hane : a ∈ a :: l := List.mem_cons_self a l
      have hmem : a + listMin (a :: l) ∈ shift_min (a :: l) :=
        List.mem_map_of_mem _ hane
      have ha0 : 0 ≤ a := hd a hane
      have hm0 : 0 ≤ listMin (a :: l) :=
        hd _ (listMin_mem (a :: l) (List.cons_ne_nil a l))
      have hle := le_listMax _ _ hmem
      rw [dist_denom]
      linarith
  · intro m1 m2 h1 h2 b hb
    rw [sharpen_denoms_two, getD_range_map _ _ _ _ hb]
    have ha := h1 b
    have hc := h2 b
    constructor
    · positivity
    · constructor
      · intro hz
        have h3 : (0 : ℕ) < 3 := by norm_num
        have ha3 : 0 ≤ (m1.getD b 0) ^ 3 := by positivity
        have hc3 : 0 ≤ (m2.getD b 0) ^ 3 := by positivity
        have he1 : (m1.getD b 0) ^ 3 = 0 := by linarith
        have he2 : (m2.getD b 0) ^ 3 = 0 := by linarith
        exact ⟨(pow_eq_zero_iff (by norm_num)).mp he1,
               (pow_eq_zero_iff (by norm_num)).mp he2⟩
      · rintro ⟨hz1, hz2⟩
        rw [hz1, hz2]
        norm_num

/-- Witness for `c5_division_guards` at concrete degenerate inputs. -/
theorem c5_division_guards_witness :
    0 < std_denom id [0] ∧ 0 < dist_denom (shift_min [0]) ∧ 0 < mask_denom [0] ∧
    (0 ≤ (sharpen_denoms [[(0 : ℚ)], [(0 : ℚ)]]).getD 0 0 ∧
      ((sharpen_denoms [[(0 : ℚ)], [(0 : ℚ)]]).getD 0 0 = 0 ↔
        ([0] : List ℚ).getD 0 0 = 0 ∧ ([0] : List ℚ).getD 0 0 = 0)) := by
  refine ⟨c5_division_guards.1 id (fun _ hx => hx) [0],
    c5_division_guards.2.1 [0] ?_,
    c5_division_guards.2.2.1 [0],
    c5_division_guards.2.2.2 [0] [0] ?_ ?_ 0 Nat.one_pos⟩
  · intro x hx
    rcases List.mem_singleton.mp hx with rfl
    exact le_refl 0
  · intro b
    rcases getD_mem_or ([0] : List ℚ) b 0 with h | h
    · rcases List.mem_singleton.mp h with h'
      rw [h']
    · rw [h]
  · intro b
    rcases getD_mem_or ([0] : List ℚ) b 0 with h | h
    · rcases List.mem_singleton.mp h with h'
      rw [h']
    · rw [h]

theorem compute_spectrograms_silence_eq (env : DCEnv) (cfg : DCConfig) (st : DCState) :
    (compute_spectrograms env cfg st).silence_mask =
      (raw_log_power env.log10Q (mel_projection env.magnitude env.mel_filter_bank
        cfg.num_channels cfg.num_time cfg.num_mels cfg.num_freq)).map
        (fun x => decide (cfg.cutoff < x)) := rfl

theorem compute_spectrograms_mel_eq (env : DCEnv) (cfg : DCConfig) (st : DCState) :
    (compute_spectrograms env cfg st).mel_spectrogram =
      ((raw_log_power env.log10Q (mel_projection env.magnitude env.mel_filter_bank
          cfg.num_channels cfg.num_time cfg.num_mels cfg.num_freq)).map
        (fun x => x - meanQ (raw_log_power env.log10Q (mel_projection env.magnitude
          env.mel_filter_bank cfg.num_channels cfg.num_time cfg.num_mels cfg.num_freq)))).map
        (fun x => x / std_denom env.sqrtQ
          ((raw_log_power env.log10Q (mel_projection env.magnitude env.mel_filter_bank
            cfg.num_channels cfg.num_time cfg.num_mels cfg.num_freq)).map
            (fun x => x - meanQ (raw_log_power env.log10Q (mel_projection env.magnitude
              env.mel_filter_bank cfg.num_channels cfg.num_time cfg.num_mels cfg.num_freq))))) :=
  rfl

theorem length_mel_projection (mag : List (List (List ℚ))) (fb : List (List ℚ))
    (C T M F : ℕ) : (mel_projection mag fb C T M F).length = C * (T * M) := by
  simp [mel_projection]

/-- C4: after `_compute_spectrograms`, the raw mel log-power is
`10·log10(power² + ε)` of the channel-wise projection of the magnitude
spectrogram onto the mel filter bank; the silence mask compares this raw
(pre-normalization) log-power against the cutoff; and the stored mel
spectrogram is the raw log-power minus its global mean, divided by its
global standard deviation plus epsilon (the `np.std` of line 146 is taken
on the centered array, which has the same variance). -/
theorem c4_compute_spectrograms (env : DCEnv) (cfg : DCConfig) (st : DCState) (i : ℕ)
    (hi : i < cfg.num_channels * (cfg.num_time * cfg.num_mels)) :
    ((compute_spectrograms env cfg st).silence_mask.getD i false =
      decide (cfg.cutoff < (raw_log_power env.log10Q (mel_projection env.magnitude
        env.mel_filter_bank cfg.num_channels cfg.num_time cfg.num_mels
        cfg.num_freq)).getD i 0)) ∧
    ((compute_spectrograms env cfg st).mel_spectrogram.getD i 0 =
      ((raw_log_power env.log10Q (mel_projection env.magnitude env.mel_filter_bank
          cfg.num_channels cfg.num_time cfg.num_mels cfg.num_freq)).getD i 0 -
        meanQ (raw_log_power env.log10Q (mel_projection env.magnitude env.mel_filter_bank
          cfg.num_channels cfg.num_time cfg.num_mels cfg.num_freq))) /
        std_denom env.sqrtQ (raw_log_power env.log10Q (mel_projection env.magnitude
          env.mel_filter_bank cfg.num_channels cfg.num_time cfg.num_mels cfg.num_freq))) ∧
    ((raw_log_power env.log10Q (mel_projection env.magnitude env.mel_filter_bank
        cfg.num_channels cfg.num_time cfg.num_mels cfg.num_freq)).getD i 0 =
      10 * env.log10Q (((mel_projection env.magnitude env.mel_filter_bank
        cfg.num_channels cfg.num_time cfg.num_mels cfg.num_freq).getD i 0) ^ 2 + eps7)) := by
  have hlp : (mel_projection env.magnitude env.mel_filter_bank cfg.num_channels
      cfg.num_time cfg.num_mels cfg.num_freq).length =
      cfg.num_channels * (cfg.num_time * cfg.num_mels) := length_mel_projection _ _ _ _ _ _
  have hip : i < (mel_projection env.magnitude env.mel_filter_bank cfg.num_channels
      cfg.num_time cfg.num_mels cfg.num_freq).length := by rw [hlp]; exact hi
  have hlr : (raw_log_power env.log10Q (mel_projection env.magnitude env.mel_filter_bank
      cfg.num_channels cfg.num_time cfg.num_mels cfg.num_freq)).length =
      cfg.num_channels * (cfg.num_time * cfg.num_mels) := by
    rw [raw_log_power, List.length_map, hlp]
  have hir : i < (raw_log_power env.log10Q (mel_projection env.magnitude
      env.mel_filter_bank cfg.num_channels cfg.num_time cfg.num_mels
      cfg.num_freq)).length := by rw [hlr]; exact hi
  have hne : raw_log_power env.log10Q (mel_projection env.magnitude env.mel_filter_bank
      cfg.num_channels cfg.num_time cfg.num_mels cfg.num_freq) ≠ [] := by
    apply List.ne_nil_of_length_pos
    omega
  have hic : i < ((raw_log_power env.log10Q (mel_projection env.magnitude
      env.mel_filter_bank cfg.num_channels cfg.num_time cfg.num_mels
      cfg.num_freq)).map (fun x => x - meanQ (raw_log_power env.log10Q
        (mel_projection env.magnitude env.mel_filter_bank cfg.num_channels
          cfg.num_time cfg.num_mels cfg.num_freq)))).length := by
    rw [List.length_map]
    exact hir
  refine ⟨?_, ?_, ?_⟩
  · rw [compute_spectrograms_silence_eq, getD_map_lt _ _ _ _ 0 hir]
  · rw [compute_spectrograms_mel_eq, getD_map_lt _ _ _ _ 0 hic,
      getD_map_lt _ _ _ _ 0 hir, std_denom, std_denom, varQ_center _ hne]
  · rw [raw_log_power, getD_map_lt _ _ _ _ 0 hip]

/-- Witness for `c4_compute_spectrograms` at a one-bin configuration. -/
theorem c4_compute_spectrograms_witness :
    (0 < 1 * (1 * 1)) ∧
    (((compute_spectrograms
        { sqrtQ := id, log10Q := id, magnitude := [[[1]]], mel_filter_bank := [[1]],
          inverse_mel_filter_bank := [[1]], model_fn := fun _ => [[0]],
          kmeans_labels := fun _ => [0], kmeans_centers := fun _ => [[0]] }
        { mask_type := "soft", num_sources := 2, max_distance := 1, cutoff := 0,
          num_channels := 1, num_time := 1, num_mels := 1, num_freq := 1 }
        initial_state).silence_mask.getD 0 false =
      decide ((0 : ℚ) < (raw_log_power id (mel_projection [[[1]]] [[1]] 1 1 1 1)).getD 0 0)) ∧
    ((compute_spectrograms
        { sqrtQ := id, log10Q := id, magnitude := [[[1]]], mel_filter_bank := [[1]],
          inverse_mel_filter_bank := [[1]], model_fn := fun _ => [[0]],
          kmeans_labels := fun _ => [0], kmeans_centers := fun _ => [[0]] }
        { mask_type := "soft", num_sources := 2, max_distance := 1, cutoff := 0,
          num_channels := 1, num_time := 1, num_mels := 1, num_freq := 1 }
        initial_state).mel_spectrogram.getD 0 0 =
      ((raw_log_power id (mel_projection [[[1]]] [[1]] 1 1 1 1)).getD 0 0 -
          meanQ (raw_log_power id (mel_projection [[[1]]] [[1]] 1 1 1 1))) /
        std_denom id (raw_log_power id (mel_projection [[[1]]] [[1]] 1 1 1 1))) ∧
    ((raw_log_power id (mel_projection [[[1]]] [[1]] 1 1 1 1)).getD 0 0 =
      10 * id (((mel_projection [[[1]]] [[1]] 1 1 1 1).getD 0 0) ^ 2 + eps7))) :=
  ⟨Nat.one_pos,
    c4_compute_spectrograms
      { sqrtQ := id, log10Q := id, magnitude := [[[1]]], mel_filter_bank := [[1]],
        inverse_mel_filter_bank := [[1]], model_fn := fun _ => [[0]],
        kmeans_labels := fun _ => [0], kmeans_centers := fun _ => [[0]] }
      { mask_type := "soft", num_sources := 2, max_distance := 1, cutoff := 0,
        num_channels := 1, num_time := 1, num_mels := 1, num_freq := 1 }
      initial_state 0 Nat.one_pos⟩

/-- C8: on every invocation of `deep_clustering`, if cached embeddings are
present the embedding model is not invoked (the model-call counter is
unchanged) and the cache field keeps the same value, while KMeans is
re-fitted on the cached embeddings; only when the cache is empty are
embeddings computed from the mel spectrogram and stored, incrementing the
model-call counter. -/
theorem c8_embedding_cache (env : DCEnv) (st : DCState) (e : List (List ℚ)) :
    (st.embeddings = some e →
      (deep_clustering env st).embeddings = some e ∧
      (deep_clustering env st).model_calls = st.model_calls ∧
      (deep_clustering env st).assignments =
        (env.kmeans_labels e).map (fun l => l + 1) ∧
      (deep_clustering env st).centroids = env.kmeans_centers e) ∧
    (st.embeddings = none →
      (deep_clustering env st).embeddings = some (env.model_fn st.mel_spectrogram) ∧
      (deep_clustering env st).model_calls = st.model_calls + 1 ∧
      (deep_clustering env st).assignments =
        (env.kmeans_labels (env.model_fn st.mel_spectrogram)).map (fun l => l + 1) ∧
      (deep_clustering env st).centroids =
        env.kmeans_centers (env.model_fn st.mel_spectrogram)) := by
  constructor
  · intro h
    simp [deep_clustering, h]
  · intro h
    simp [deep_clustering, h]

/-- Witness for `c8_embedding_cache`: a populated cache is reused without a
model call; an empty cache triggers exactly one model call. -/
theorem c8_embedding_cache_witness :
    ({ initial_state with embeddings := some [[1]] } : DCState).embeddings = some [[1]] ∧
    (deep_clustering
      { sqrtQ := id, log10Q := id, magnitude := [[[1]]], mel_filter_bank := [[1]],
        inverse_mel_filter_bank := [[1]], model_fn := fun _ => [[2]],
        kmeans_labels := fun _ => [0], kmeans_centers := fun _ => [[0]] }
      { initial_state with embeddings := some [[1]] }).embeddings = some [[1]] ∧
    (deep_clustering
      { sqrtQ := id, log10Q := id, magnitude := [[[1]]], mel_filter_bank := [[1]],
        inverse_mel_filter_bank := [[1]], model_fn := fun _ => [[2]],
        kmeans_labels := fun _ => [0], kmeans_centers := fun _ => [[0]] }
      { initial_state with embeddings := some [[1]] }).model_calls =
      ({ initial_state with embeddings := some [[1]] } : DCState).model_calls ∧
    initial_state.embeddings = none ∧
    (deep_clustering
      { sqrtQ := id, log10Q := id, magnitude := [[[1]]], mel_filter_bank := [[1]],
        inverse_mel_filter_bank := [[1]], model_fn := fun _ => [[2]],
        kmeans_labels := fun _ => [0], kmeans_centers := fun _ => [[0]] }
      initial_state).model_calls = initial_state.model_calls + 1 :=
  ⟨rfl,
    ((c8_embedding_cache _ _ [[1]]).1 rfl).1,
    ((c8_embedding_cache _ _ [[1]]).1 rfl).2.1,
    rfl,
    ((c8_embedding_cache
      { sqrtQ := id, log10Q := id, magnitude := [[[1]]], mel_filter_bank := [[1]],
        inverse_mel_filter_bank := [[1]], model_fn := fun _ => [[2]],
        kmeans_labels := fun _ => [0], kmeans_centers := fun _ => [[0]] }
      initial_state [[1]]).2 rfl).2.1⟩

/-- C9: construction mutates the caller's audio signal in place — if the
signal's sample rate differs from the configured `resample_rate` it is
resampled (its rate becomes `resample_rate`), and if `do_mono` is set it
is downmixed to one channel; when neither condition holds the signal is
untouched. -/
theorem c9_init_mutates_signal (sig : AudioSignal) (rr : ℕ) (dm : Bool) :
    (sig.sample_rate ≠ rr → (init_audio_effect sig rr dm).sample_rate = rr) ∧
    (dm = true → (init_audio_effect sig rr dm).num_channels = 1) ∧
    (sig.sample_rate = rr → dm = false → init_audio_effect sig rr dm = sig) := by
  refine ⟨?_, ?_, ?_⟩
  · intro h
    cases dm <;> simp [init_audio_effect, h, resample_signal, to_mono]
  · intro h
    subst h
    by_cases h2 : sig.sample_rate = rr <;>
      simp [init_audio_effect, h2, resample_signal, to_mono]
  · intro h1 h2
    subst h2
    simp [init_audio_effect, h1]

/-- Witness for `c9_init_mutates_signal`: a 22.05 kHz stereo signal passed
to a separator configured for 44.1 kHz with `do_mono = True` comes back
resampled and downmixed. -/
theorem c9_init_mutates_signal_witness :
    ((22050 : ℕ) ≠ 44100) ∧
    (init_audio_effect ⟨22050, 2⟩ 44100 true).sample_rate = 44100 ∧
    (init_audio_effect ⟨22050, 2⟩ 44100 true).num_channels = 1 :=
  ⟨by omega,
    (c9_init_mutates_signal ⟨22050, 2⟩ 44100 true).1 (by decide),
    (c9_init_mutates_signal ⟨22050, 2⟩ 44100 true).2.1 rfl⟩

theorem compute_spectrograms_stft (env : DCEnv) (cfg : DCConfig) (st : DCState) :
    (compute_spectrograms env cfg st).stft_present = true := rfl

theorem deep_clustering_stft (env : DCEnv) (st : DCState) :
    (deep_clustering env st).stft_present = st.stft_present := by
  rw [deep_clustering]
  cases st.embeddings <;> rfl

theorem extract_masks_unknown (env : DCEnv) (cfg : DCConfig) (st : DCState) (ch : ℕ)
    (hb : cfg.mask_type ≠ BINARY_MASK) (hs : cfg.mask_type ≠ SOFT_MASK)
    (hst : st.stft_present = true) (hns : 0 < cfg.num_sources) :
    extract_masks env cfg st ch = .error .unboundLocalMask := by
  obtain ⟨S, hS⟩ : ∃ S, cfg.num_sources = S + 1 := ⟨cfg.num_sources - 1, by omega⟩
  have h1 : mask_for_cluster env cfg st ch 1 = .error .unboundLocalMask := by
    rw [mask_for_cluster, if_neg hb, if_neg hs]
  rw [extract_masks, hst]
  simp only [Bool.true_eq_false, if_false, hS, List.range_succ_eq_map, List.mapM_cons]
  rw [show (0 : ℕ) + 1 = 1 from rfl, h1]
  rfl

/-- C6: with a `mask_type` that is neither the binary nor the soft value,
a run does fail fatally, but not with the `ValueError('Unknown mask type')`
of line 261: inside `_extract_masks` neither branch of the `if/elif`
(lines 184-192) assigns `mask`, so line 193 raises `UnboundLocalError`
first, and the unknown-mask-type error at assembly is unreachable whenever
there is at least one channel and one source. -/
theorem c6_unknown_mask_type (env : DCEnv) (cfg : DCConfig) (st : DCState)
    (hb : cfg.mask_type ≠ BINARY_MASK) (hs : cfg.mask_type ≠ SOFT_MASK)
    (hC : 0 < cfg.num_channels) (hS : 0 < cfg.num_sources) :
    run env cfg st = .error .unboundLocalMask ∧
    run env cfg st ≠ .error .unknownMaskType := by
  have hex : extract_masks env cfg
      (deep_clustering env (compute_spectrograms env cfg st)) 0 =
      .error .unboundLocalMask := by
    apply extract_masks_unknown env cfg _ 0 hb hs _ hS
    rw [deep_clustering_stft, compute_spectrograms_stft]
  obtain ⟨C, hCe⟩ : ∃ C, cfg.num_channels = C + 1 := ⟨cfg.num_channels - 1, by omega⟩
  have hrun : run env cfg st = .error .unboundLocalMask := by
    rw [run]
    simp only [hCe, List.range_succ_eq_map, List.mapM_cons]
    rw [hex]
    rfl
  exact ⟨hrun, by rw [hrun]; intro h; cases h⟩

/-- Witness for `c6_unknown_mask_type`: a concrete failing input with
`mask_type = "magnitude"`, one channel and two sources. -/
theorem c6_unknown_mask_type_witness :
    ("magnitude" ≠ BINARY_MASK ∧ "magnitude" ≠ SOFT_MASK ∧ (0 : ℕ) < 1 ∧ (0 : ℕ) < 2) ∧
    (run
      { sqrtQ := id, log10Q := id, magnitude := [[[1]]], mel_filter_bank := [[1]],
        inverse_mel_filter_bank := [[1]], model_fn := fun _ => [[0]],
        kmeans_labels := fun _ => [0], kmeans_centers := fun _ => [[0], [0]] }
      { mask_type := "magnitude", num_sources := 2, max_distance := 1, cutoff := 0,
        num_channels := 1, num_time := 1, num_mels := 1, num_freq := 1 }
      initial_state = .error .unboundLocalMask ∧
     run
      { sqrtQ := id, log10Q := id, magnitude := [[[1]]], mel_filter_bank := [[1]],
        inverse_mel_filter_bank := [[1]], model_fn := fun _ => [[0]],
        kmeans_labels := fun _ => [0], kmeans_centers := fun _ => [[0], [0]] }
      { mask_type := "magnitude", num_sources := 2, max_distance := 1, cutoff := 0,
        num_channels := 1, num_time := 1, num_mels := 1, num_freq := 1 }
      initial_state ≠ .error .unknownMaskType) :=
  ⟨⟨by decide, by decide, Nat.one_pos, by omega⟩,
    c6_unknown_mask_type _ _ initial_state (by decide) (by decide) Nat.one_pos (by decide)⟩
